import Mathlib

/-!
Shallow embedding of the agentic memory engine (src/storage.ts: classes
`MemoryStorage` and `AgenticMemory`).

Modelling conventions:
* The Qdrant collection is a list of points (`Store`).  A point keeps the
  search vector (`vector`) separately from its payload fields (`content`,
  `metadata`, `createdAt`, `updatedAt`, and the payload attribute named
  "vector" that `updateMemory` writes, modelled as `payloadVector`), because
  Qdrant's `setPayload` mutates only the payload and never the point's
  search vector.
* Embedding vectors are `List Int`; similarity scores are `Rat` (the source
  compares floating-point cosine scores against thresholds 0.3 / 0.5).
  `embed` and `score` are abstract deterministic collaborator functions
  packaged in `Env`, together with the UUID supply (`crypto.randomUUID`) and
  the clock (`Date.now`), held constant during one call.
* The two `generateObject` calls to the reasoning collaborator are oracles:
  `llmF` (fact extraction, schema: list of strings) and `llmC`
  (consolidation actions, schema: list of actions).  Any value of the oracle
  type is schema-valid, exactly as much as the zod schema guarantees.
* Storage-mutation failure (each action's storage call can fail
  independently) is modelled by the oracle `failAt : Nat -> Bool` indexed by
  the action's position; a failing call performs no mutation and the
  exception propagates, which the embedding records in `ApplyOutcome.failure`
  while keeping the already-applied store.
-/

namespace AgenticMem

/-- Interface `MemoryMetadata` from src/storage.ts. -/
structure MemoryMetadata where
  userId : String
  timestamp : Nat
deriving DecidableEq, Repr

/-- A Qdrant point as the code writes it: the search vector plus the payload
fields (`content`, `metadata`, `createdAt`, `updatedAt`).  `payloadVector` is
the payload attribute named "vector" that `updateMemory` writes via
`setPayload`; it is distinct from the point's search vector. -/
structure QPoint where
  id : String
  vector : List Int
  content : String
  metadata : MemoryMetadata
  payloadVector : Option (List Int)
  createdAt : Nat
  updatedAt : Nat
deriving DecidableEq, Repr

/-- The Qdrant collection state. -/
abbrev Store := List QPoint

/-- Interface `Memory` from src/storage.ts (the shape returned to callers). -/
structure Memory where
  id : String
  content : String
  metadata : MemoryMetadata
  vector : Option (List Int)
  createdAt : Nat
  updatedAt : Nat
deriving DecidableEq, Repr

/-- External collaborators and ambient effects of one call: the deterministic
embedding service, the similarity scoring of the vector store, the UUID
supply and the clock. -/
structure Env where
  embed : String → List Int
  score : List Int → List Int → Rat
  uuid : Nat → String
  now : Nat

/-- Mapping a stored point to the `Memory` shape, as the result-mapping code
in `searchMemories` / `getMemory` / `getMemoriesByDateRange` does. -/
def pointToMemory (p : QPoint) : Memory :=
  ⟨p.id, p.content, p.metadata, some p.vector, p.createdAt, p.updatedAt⟩

/-- Insert a point into a score-descending ranking (stable). -/
def insertDesc (f : QPoint → Rat) (p : QPoint) : List QPoint → List QPoint
  | [] => [p]
  | q :: rest => if f q < f p then p :: q :: rest else q :: insertDesc f p rest

/-- Rank points by descending similarity score, as the vector store does for
a search. -/
def sortByScoreDesc (f : QPoint → Rat) : List QPoint → List QPoint
  | [] => []
  | p :: rest => insertDesc f p (sortByScoreDesc f rest)

/-- Qdrant `search`: filter by the `metadata.userId` match condition and the
`score_threshold`, rank by similarity score, return at most `limit` points. -/
def qdrantSearch (env : Env) (store : Store) (vec : List Int) (userId : String)
    (limit : Nat) (threshold : Rat) : List QPoint :=
  (sortByScoreDesc (fun p => env.score vec p.vector)
    (store.filter
      (fun p => p.metadata.userId == userId && decide (threshold ≤ env.score vec p.vector)))).take
    limit

namespace MemoryStorage

/-- Method `MemoryStorage.addMemory`: generate a fresh id, use the provided
vector or embed the content, upsert the point with `createdAt` and
`updatedAt` set to the current time.  Returns the new store and the advanced
UUID counter. -/
def addMemory (env : Env) (store : Store) (counter : Nat)
    (vector : Option (List Int)) (content : String) (metadata : MemoryMetadata) :
    Store × Nat :=
  let id := env.uuid counter
  let v := vector.getD (env.embed content)
  let p : QPoint := ⟨id, v, content, metadata, none, env.now, env.now⟩
  (if store.any (fun q => q.id == id) then
    store.map (fun q => if q.id == id then p else q)
   else store ++ [p], counter + 1)

/-- Payload merge performed by `MemoryStorage.updateMemory` on one point: it
always writes `updatedAt`; when a content update is provided and truthy
(non-empty), it writes `content` and a payload attribute "vector" holding the
re-generated embedding; when metadata is provided it writes `metadata`.  The
point's search vector is untouched (Qdrant `setPayload` only merges payload). -/
def setPayloadPoint (env : Env) (p : QPoint) (content : Option String)
    (metadata : Option MemoryMetadata) : QPoint :=
  let p1 : QPoint := { p with updatedAt := env.now }
  let p2 : QPoint :=
    match content with
    | some c =>
      if c ≠ "" then { p1 with content := c, payloadVector := some (env.embed c) } else p1
    | none => p1
  match metadata with
  | some md => { p2 with metadata := md }
  | none => p2

/-- Method `MemoryStorage.updateMemory`: a `setPayload` call on the single
point named by `id`. -/
def updateMemory (env : Env) (store : Store) (id : String)
    (content : Option String) (metadata : Option MemoryMetadata) : Store :=
  store.map (fun p => if p.id == id then setPayloadPoint env p content metadata else p)

/-- Method `MemoryStorage.deleteMemory`: point delete by id. -/
def deleteMemory (store : Store) (id : String) : Store :=
  store.filter (fun p => p.id != id)

/-- Method `MemoryStorage.getMemory`: retrieve by id; an empty retrieve result
returns `none`.  The method catches any collaborator error and also returns
`none` (`retrieveFails` models the retrieve call failing). -/
def getMemory (retrieveFails : Bool) (store : Store) (id : String) : Option Memory :=
  if retrieveFails then none
  else
    match store.find? (fun p => p.id == id) with
    | none => none
    | some p => some (pointToMemory p)

/-- Core of `MemoryStorage.searchMemories` once a query vector is in hand:
user-filtered, thresholded, ranked vector search mapped to `Memory`. -/
def searchMemoriesVec (env : Env) (store : Store) (userId : String)
    (vec : List Int) (limit : Nat) (threshold : Rat) : List Memory :=
  (qdrantSearch env store vec userId limit threshold).map pointToMemory

/-- Method `MemoryStorage.searchMemories`: requires either a vector or a
query (else it throws); uses the provided vector or embeds the query; defaults
used by callers are limit 10 and threshold 0.3. -/
def searchMemories (env : Env) (store : Store) (userId : String)
    (query : Option String) (vector : Option (List Int)) (limit : Nat)
    (threshold : Rat) : Except String (List Memory) :=
  match vector, query with
  | none, none => .error "Either vector or query must be provided"
  | _, _ =>
    let vec := vector.getD (env.embed (query.getD ""))
    .ok (searchMemoriesVec env store userId vec limit threshold)

/-- Method `MemoryStorage.getMemoriesByDateRange`: scroll with a filter on
`metadata.userId` and a `metadata.timestamp` range (gte start, lte end), with
a limit. -/
def getMemoriesByDateRange (store : Store) (userId : String)
    (startDate endDate : Nat) (limit : Nat) : List Memory :=
  ((store.filter
      (fun p => p.metadata.userId == userId
        && decide (startDate ≤ p.metadata.timestamp)
        && decide (p.metadata.timestamp ≤ endDate))).take limit).map pointToMemory

end MemoryStorage

/-- The four action kinds of `MemoryAction` in src/storage.ts. -/
inductive ActionType where
  | ADD
  | UPDATE
  | DELETE
  | UNCHANGED
deriving DecidableEq, Repr

/-- Type `MemoryAction`: the exact shape the zod schema of the consolidation
call validates (type, optional id, text, optional oldFact).  Nothing beyond
this shape is guaranteed by the code. -/
structure MemoryAction where
  type : ActionType
  id : Option String
  text : String
  oldFact : Option String
deriving DecidableEq, Repr

/-- Candidate memory formatted for the consolidation prompt: id and content. -/
abbrev FormattedMemory := String × String

/-- Fact-extraction oracle: the structured response of the first
`generateObject` call (schema: list of strings). -/
abbrev FactsOracle := String → List String

/-- Consolidation oracle: the structured response of the second
`generateObject` call, as a function of the formatted existing memories and
the new facts (schema: list of `MemoryAction`). -/
abbrev ConsolidationOracle := List FormattedMemory → List String → List MemoryAction

/-- JavaScript `Map.set` on an association list (overwrite on key hit, append
otherwise). -/
def mapSet (m : List (String × List Int)) (k : String) (v : List Int) :
    List (String × List Int) :=
  if m.any (fun p => p.1 == k) then
    m.map (fun p => if p.1 == k then (k, v) else p)
  else m ++ [(k, v)]

/-- JavaScript `Map.get` on an association list (`undefined` is `none`). -/
def mapGet (m : List (String × List Int)) (k : String) : Option (List Int) :=
  (m.find? (fun p => p.1 == k)).map (fun p => p.2)

/-- Step 2 of `AgenticMemory.add`: one `embedQuery` call per extracted fact,
collected into a `Map` from fact text to its embedding. -/
def buildFactEmbeddings (env : Env) (facts : List String) : List (String × List Int) :=
  facts.foldl (fun m fact => mapSet m fact (env.embed fact)) []

namespace AgenticMemory

/-- Method `AgenticMemory.extractFacts`: the structured reply of the
fact-extraction reasoning call. -/
def extractFacts (llmF : FactsOracle) (input : String) : List String :=
  llmF input

/-- The first-occurrence dedup in `findSimilarMemories`:
`filter((memory, index, self) => index === self.findIndex(m => m.id === memory.id))`. -/
def dedupById (l : List Memory) : List Memory :=
  (l.enum.filter (fun p => l.findIdx (fun m => m.id == p.2.id) == p.1)).map Prod.snd

/-- Method `AgenticMemory.findSimilarMemories`: for each fact, embed it and
run a vector search with limit 5 and threshold 0.5 scoped to `userId`;
concatenate all results and remove duplicate ids keeping first occurrences. -/
def findSimilarMemories (env : Env) (store : Store) (facts : List String)
    (userId : String) : List Memory :=
  let allMemories :=
    (facts.map (fun fact =>
      MemoryStorage.searchMemoriesVec env store userId (env.embed fact) 5 (mkRat 1 2))).flatten
  dedupById allMemories

/-- Method `AgenticMemory.generateConsolidationActions`: format the candidate
memories as id/text pairs and return the consolidation oracle's structured
reply unmodified — the code performs no validation beyond the zod schema. -/
def generateConsolidationActions (llmC : ConsolidationOracle)
    (oldMemories : List Memory) (newFacts : List String) : List MemoryAction :=
  let formattedMemories := oldMemories.map (fun memory => (memory.id, memory.content))
  llmC formattedMemories newFacts

/-- Result of applying an action sequence: the store, the UUID counter, and
the failure (index and action of the storage call that threw), if any. -/
structure ApplyOutcome where
  store : Store
  counter : Nat
  failure : Option (Nat × MemoryAction)
deriving DecidableEq, Repr

/-- Method `AgenticMemory.applyMemoryActions` with each action's storage call
allowed to fail independently (`failAt i` is true when the call issued for the
action at index `i` throws).  ADD upserts a new point owned by
`context.userId` with `metadata.timestamp = Date.now()`, using the
precomputed embedding for the action text when the map has it; UPDATE and
DELETE are guarded by `if (action.id)` and silently skipped when the id is
absent; UNCHANGED is a no-op.  A thrown storage call performs no mutation and
stops the loop, leaving earlier mutations applied. -/
def applyMemoryActionsF (env : Env) (failAt : Nat → Bool)
    (factEmbeddings : List (String × List Int)) (context : MemoryMetadata) :
    List MemoryAction → Store → Nat → Nat → ApplyOutcome
  | [], store, counter, _ => ⟨store, counter, none⟩
  | action :: rest, store, counter, i =>
    match action.type with
    | .ADD =>
      if failAt i then ⟨store, counter, some (i, action)⟩
      else
        let res := MemoryStorage.addMemory env store counter
          (mapGet factEmbeddings action.text) action.text ⟨context.userId, env.now⟩
        applyMemoryActionsF env failAt factEmbeddings context rest res.1 res.2 (i + 1)
    | .UPDATE =>
      match action.id with
      | some id =>
        if failAt i then ⟨store, counter, some (i, action)⟩
        else
          applyMemoryActionsF env failAt factEmbeddings context rest
            (MemoryStorage.updateMemory env store id (some action.text) none) counter (i + 1)
      | none => applyMemoryActionsF env failAt factEmbeddings context rest store counter (i + 1)
    | .DELETE =>
      match action.id with
      | some id =>
        if failAt i then ⟨store, counter, some (i, action)⟩
        else
          applyMemoryActionsF env failAt factEmbeddings context rest
            (MemoryStorage.deleteMemory store id) counter (i + 1)
      | none => applyMemoryActionsF env failAt factEmbeddings context rest store counter (i + 1)
    | .UNCHANGED => applyMemoryActionsF env failAt factEmbeddings context rest store counter (i + 1)

/-- Whether an action makes the applier issue a storage call: ADD always
does; UPDATE and DELETE only when they carry an id (the `if (action.id)`
guards); UNCHANGED never does. -/
def issuesCall (action : MemoryAction) : Bool :=
  match action.type, action.id with
  | .ADD, _ => true
  | .UPDATE, some _ => true
  | .DELETE, some _ => true
  | _, _ => false

/-- The storage effect of one successfully applied action, factored out of
`applyMemoryActionsF` (same branches, without the failure plumbing). -/
def stepStore (env : Env) (factEmbeddings : List (String × List Int))
    (context : MemoryMetadata) (action : MemoryAction) (store : Store)
    (counter : Nat) : Store × Nat :=
  match action.type, action.id with
  | .ADD, _ =>
    MemoryStorage.addMemory env store counter (mapGet factEmbeddings action.text)
      action.text ⟨context.userId, env.now⟩
  | .UPDATE, some id =>
    (MemoryStorage.updateMemory env store id (some action.text) none, counter)
  | .DELETE, some id => (MemoryStorage.deleteMemory store id, counter)
  | _, _ => (store, counter)

/-- Method `AgenticMemory.applyMemoryActions` on healthy storage (no call
fails). -/
def applyMemoryActions (env : Env) (factEmbeddings : List (String × List Int))
    (context : MemoryMetadata) (actions : List MemoryAction) (store : Store)
    (counter : Nat) : ApplyOutcome :=
  applyMemoryActionsF env (fun _ => false) factEmbeddings context actions store counter 0

/-- Result of one `add` call. -/
structure AddResult where
  store : Store
  counter : Nat
  failure : Option (Nat × MemoryAction)
deriving DecidableEq, Repr

/-- Method `AgenticMemory.add`: extract facts, embed each fact into the
fact-embedding map, retrieve similar memories, ask the consolidation oracle
for actions, and apply them. -/
def add (env : Env) (llmF : FactsOracle) (llmC : ConsolidationOracle)
    (failAt : Nat → Bool) (store : Store) (counter : Nat) (input : String)
    (context : MemoryMetadata) : AddResult :=
  let facts := extractFacts llmF input
  let factEmbeddings := buildFactEmbeddings env facts
  let oldMemories := findSimilarMemories env store facts context.userId
  let actions := generateConsolidationActions llmC oldMemories facts
  let out := applyMemoryActionsF env failAt factEmbeddings context actions store counter 0
  ⟨out.store, out.counter, out.failure⟩

/-- Method `AgenticMemory.search`: storage search with the query text,
limit 10 and threshold 0.3, scoped to the caller's user. -/
def search (env : Env) (store : Store) (query : String) (context : MemoryMetadata) :
    Except String (List Memory) :=
  MemoryStorage.searchMemories env store context.userId (some query) none 10 (mkRat 3 10)

/-- Method `AgenticMemory.get`: delegates to `MemoryStorage.getMemory`. -/
def get (retrieveFails : Bool) (store : Store) (id : String) : Option Memory :=
  MemoryStorage.getMemory retrieveFails store id

/-- Method `AgenticMemory.delete`: delegates to `MemoryStorage.deleteMemory`. -/
def delete (store : Store) (id : String) : Store :=
  MemoryStorage.deleteMemory store id

/-- Method `AgenticMemory.getMemoriesByDateRange`: delegates to storage. -/
def getMemoriesByDateRange (store : Store) (userId : String)
    (startDate endDate : Nat) (limit : Nat) : List Memory :=
  MemoryStorage.getMemoriesByDateRange store userId startDate endDate limit

/-- Texts passed to `embedQuery` while applying one action list: an ADD whose
text is missing from the embedding map embeds its content inside `addMemory`;
an UPDATE carrying an id embeds its non-empty new content inside
`updateMemory`; DELETE and UNCHANGED issue no embedding call. -/
def embedCallsOfApply (factEmbeddings : List (String × List Int)) :
    List MemoryAction → List String
  | [] => []
  | action :: rest =>
    (match action.type, action.id with
     | .ADD, _ =>
       match mapGet factEmbeddings action.text with
       | some _ => []
       | none => [action.text]
     | .UPDATE, some _ => if action.text ≠ "" then [action.text] else []
     | _, _ => []) ++ embedCallsOfApply factEmbeddings rest

/-- Texts passed to `embedQuery` during one `add` call on healthy storage:
once per fact while building the fact-embedding map (step 2), once per fact
inside `findSimilarMemories` (step 3), plus the apply-phase calls. -/
def embedCallsOfAdd (env : Env) (llmF : FactsOracle) (llmC : ConsolidationOracle)
    (store : Store) (input : String) (context : MemoryMetadata) : List String :=
  let facts := extractFacts llmF input
  let factEmbeddings := buildFactEmbeddings env facts
  let oldMemories := findSimilarMemories env store facts context.userId
  let actions := generateConsolidationActions llmC oldMemories facts
  facts ++ facts ++ embedCallsOfApply factEmbeddings actions

end AgenticMemory

/-! Concrete fixtures used by witnesses and counterexamples. -/

/-- Test environment whose similarity score is constantly 1 (every stored
point passes every threshold). -/
def envHit : Env :=
  ⟨fun s => if s == "new" then [1] else [0], fun _ _ => 1,
   fun n => "id" ++ toString n, 7⟩

/-- Test environment whose similarity score is constantly 0 (no stored point
passes the 0.5 candidate threshold). -/
def envMiss : Env :=
  ⟨fun s => if s == "new" then [1] else [0], fun _ _ => 0,
   fun n => "id" ++ toString n, 7⟩

/-- Test environment whose similarity score is 1 when the query vector
equals the point's stored search vector and 0 otherwise (an exact-match
stand-in for cosine similarity). -/
def envEq : Env :=
  ⟨fun s => if s == "new" then [1] else [0],
   fun q v => if q == v then 1 else 0,
   fun n => "id" ++ toString n, 7⟩

/-- A stored point owned by user "B". -/
def pointB : QPoint := ⟨"m1", [0], "old", ⟨"B", 3⟩, none, 1, 2⟩

/-- A stored point owned by user "A". -/
def pointA : QPoint := ⟨"m2", [0], "fact", ⟨"A", 4⟩, none, 1, 2⟩

/-! Helper lemmas about the vector-store search. -/

theorem mem_insertDesc {f : QPoint → Rat} {p a : QPoint} {l : List QPoint} :
    a ∈ insertDesc f p l ↔ a = p ∨ a ∈ l := by
  induction l with
  | nil => simp [insertDesc]
  | cons q rest ih =>
    by_cases h : f q < f p
    · simp [insertDesc, h]
    · simp only [insertDesc, if_neg h, List.mem_cons, ih]
      tauto

theorem mem_sortByScoreDesc {f : QPoint → Rat} {a : QPoint} {l : List QPoint} :
    a ∈ sortByScoreDesc f l ↔ a ∈ l := by
  induction l with
  | nil => simp [sortByScoreDesc]
  | cons q rest ih => simp [sortByScoreDesc, mem_insertDesc, ih]

theorem mem_qdrantSearch {env : Env} {store : Store} {vec : List Int}
    {userId : String} {limit : Nat} {threshold : Rat} {p : QPoint}
    (h : p ∈ qdrantSearch env store vec userId limit threshold) :
    p ∈ store ∧ p.metadata.userId = userId ∧ threshold ≤ env.score vec p.vector := by
  unfold qdrantSearch at h
  have h1 := List.mem_of_mem_take h
  rw [mem_sortByScoreDesc, List.mem_filter] at h1
  obtain ⟨hs, hcond⟩ := h1
  simp only [Bool.and_eq_true, beq_iff_eq, decide_eq_true_eq] at hcond
  exact ⟨hs, hcond.1, hcond.2⟩

theorem mem_searchMemoriesVec {env : Env} {store : Store} {userId : String}
    {vec : List Int} {limit : Nat} {threshold : Rat} {m : Memory}
    (h : m ∈ MemoryStorage.searchMemoriesVec env store userId vec limit threshold) :
    ∃ p ∈ store, m = pointToMemory p ∧ m.metadata.userId = userId := by
  unfold MemoryStorage.searchMemoriesVec at h
  rw [List.mem_map] at h
  obtain ⟨p, hp, hmp⟩ := h
  obtain ⟨hs, hu, _⟩ := mem_qdrantSearch hp
  exact ⟨p, hs, hmp.symm, by rw [← hmp]; exact hu⟩

/-! Helper lemmas about the first-occurrence dedup of `findSimilarMemories`. -/

theorem dedupById_subset {l : List Memory} {m : Memory}
    (h : m ∈ AgenticMemory.dedupById l) : m ∈ l := by
  unfold AgenticMemory.dedupById at h
  rw [List.mem_map] at h
  obtain ⟨p, hp, hmp⟩ := h
  rw [List.mem_filter] at hp
  obtain ⟨q, a⟩ := p
  have := List.mk_mem_enum_iff_getElem?.mp hp.1
  subst hmp
  exact List.getElem?_mem this

theorem dedupById_nodup (l : List Memory) :
    ((AgenticMemory.dedupById l).map Memory.id).Nodup := by
  unfold AgenticMemory.dedupById
  rw [List.map_map]
  apply List.Nodup.map_on
  · intro x hx y hy hxy
    rw [List.mem_filter] at hx hy
    have hx1 : l.findIdx (fun m => m.id == x.2.id) = x.1 := by
      have := hx.2; simpa using this
    have hy1 : l.findIdx (fun m => m.id == y.2.id) = y.1 := by
      have := hy.2; simpa using this
    have hid : x.2.id = y.2.id := hxy
    rw [hid] at hx1
    have hfst : x.1 = y.1 := hx1.symm.trans hy1
    obtain ⟨i, a⟩ := x
    obtain ⟨j, b⟩ := y
    simp only at hfst hid
    subst hfst
    have ha := List.mk_mem_enum_iff_getElem?.mp hx.1
    have hb := List.mk_mem_enum_iff_getElem?.mp hy.1
    rw [ha] at hb
    simp only [Option.some.injEq] at hb
    rw [hb]
  · exact (List.Nodup.of_map Prod.fst (List.nodup_enum_map_fst l)).filter _

theorem dedupById_covers {l : List Memory} {m : Memory} (h : m ∈ l) :
    ∃ m', m' ∈ AgenticMemory.dedupById l ∧ m'.id = m.id := by
  have hex : ∃ x ∈ l, (fun x => x.id == m.id) x := ⟨m, h, by simp⟩
  have hlt := List.findIdx_lt_length_of_exists hex
  have hpj : ((l.get ⟨l.findIdx (fun x => x.id == m.id), hlt⟩).id == m.id) = true :=
    @List.findIdx_getElem _ (fun x => x.id == m.id) l hlt
  have hid : (l.get ⟨l.findIdx (fun x => x.id == m.id), hlt⟩).id = m.id := by
    simpa using hpj
  refine ⟨l.get ⟨l.findIdx (fun x => x.id == m.id), hlt⟩, ?_, hid⟩
  unfold AgenticMemory.dedupById
  rw [List.mem_map]
  refine ⟨(l.findIdx (fun x => x.id == m.id),
    l.get ⟨l.findIdx (fun x => x.id == m.id), hlt⟩), ?_, rfl⟩
  rw [List.mem_filter]
  constructor
  · exact List.mk_mem_enum_iff_getElem?.mpr (by simp)
  · simp only [hid, beq_iff_eq]

/-! Helper lemmas about the storage mutations. -/

theorem mem_addMemory {env : Env} {store : Store} {counter : Nat}
    {vector : Option (List Int)} {content : String} {metadata : MemoryMetadata}
    {p : QPoint}
    (h : p ∈ (MemoryStorage.addMemory env store counter vector content metadata).1) :
    p ∈ store ∨
      p = ⟨env.uuid counter, vector.getD (env.embed content), content, metadata,
        none, env.now, env.now⟩ := by
  unfold MemoryStorage.addMemory at h
  dsimp only at h
  split at h
  · rw [List.mem_map] at h
    obtain ⟨q, hq, hpq⟩ := h
    by_cases hid : (q.id == env.uuid counter) = true
    · rw [if_pos hid] at hpq
      right; exact hpq.symm
    · rw [if_neg hid] at hpq
      left; exact hpq ▸ hq
  · rw [List.mem_append] at h
    rcases h with h | h
    · left; exact h
    · right; simpa using h

theorem mem_updateMemory {env : Env} {store : Store} {id : String}
    {content : Option String} {metadata : Option MemoryMetadata} {p : QPoint}
    (h : p ∈ MemoryStorage.updateMemory env store id content metadata) :
    ∃ q ∈ store, p = q ∨ p = MemoryStorage.setPayloadPoint env q content metadata := by
  unfold MemoryStorage.updateMemory at h
  rw [List.mem_map] at h
  obtain ⟨q, hq, hpq⟩ := h
  refine ⟨q, hq, ?_⟩
  by_cases hid : (q.id == id) = true
  · right; rw [← hpq, if_pos hid]
  · left; rw [← hpq, if_neg hid]

theorem setPayloadPoint_metadata_none (env : Env) (q : QPoint) (content : Option String) :
    (MemoryStorage.setPayloadPoint env q content none).metadata = q.metadata := by
  unfold MemoryStorage.setPayloadPoint
  cases content with
  | none => rfl
  | some c =>
    by_cases h : c = ""
    · simp [h]
    · simp [h]

theorem mem_deleteMemory {store : Store} {id : String} {p : QPoint}
    (h : p ∈ MemoryStorage.deleteMemory store id) : p ∈ store :=
  List.mem_of_mem_filter h

/-! Helper lemmas about the fact-embedding map. -/

theorem find?_map_overwrite {k : String} {v : List Int}
    {m : List (String × List Int)}
    (h : m.any (fun p => p.1 == k) = true) :
    (m.map (fun p => if p.1 == k then (k, v) else p)).find? (fun p => p.1 == k) =
      some (k, v) := by
  induction m with
  | nil => simp at h
  | cons a rest ih =>
    rw [List.map_cons]
    by_cases ha : (a.1 == k) = true
    · rw [if_pos ha]
      exact List.find?_cons_of_pos _ (by simp)
    · have h' : rest.any (fun p => p.1 == k) = true := by
        rw [List.any_cons, Bool.or_eq_true] at h
        rcases h with h | h
        · exact absurd h ha
        · exact h
      rw [if_neg ha, List.find?_cons_of_neg _ (by simpa using ha), ih h']

theorem find?_map_overwrite_ne {k k' : String} {v : List Int}
    (m : List (String × List Int)) (h : k' ≠ k) :
    (m.map (fun p => if p.1 == k then (k, v) else p)).find? (fun p => p.1 == k') =
      m.find? (fun p => p.1 == k') := by
  induction m with
  | nil => rfl
  | cons a rest ih =>
    rw [List.map_cons]
    by_cases ha : (a.1 == k) = true
    · have hak : a.1 = k := by simpa using ha
      have h2 : (a.1 == k') = false := by
        simp only [beq_eq_false_iff_ne, ne_eq, hak]
        exact fun hkk => h hkk.symm
      have h1 : ((k : String) == k') = false := by
        simp only [beq_eq_false_iff_ne, ne_eq]
        exact fun hkk => h hkk.symm
      rw [if_pos ha]
      simp only [List.find?_cons, h1, h2]
      exact ih
    · rw [if_neg ha]
      by_cases hk' : (a.1 == k') = true
      · simp only [List.find?_cons, hk']
      · simp only [List.find?_cons, hk', ih]

theorem mapGet_mapSet_self (m : List (String × List Int)) (k : String) (v : List Int) :
    mapGet (mapSet m k v) k = some v := by
  unfold mapSet mapGet
  by_cases hc : m.any (fun p => p.1 == k) = true
  · rw [if_pos hc, find?_map_overwrite hc]
    rfl
  · rw [if_neg hc, List.find?_append]
    have hnone : m.find? (fun p => p.1 == k) = none := by
      rw [List.find?_eq_none]
      intro x hx
      exact fun hp => hc (List.any_eq_true.mpr ⟨x, hx, hp⟩)
    rw [hnone]
    simp [List.find?_cons]

theorem mapGet_mapSet_ne {k k' : String} (m : List (String × List Int))
    (v : List Int) (h : k' ≠ k) : mapGet (mapSet m k v) k' = mapGet m k' := by
  unfold mapSet mapGet
  by_cases hc : m.any (fun p => p.1 == k) = true
  · rw [if_pos hc, find?_map_overwrite_ne m h]
  · rw [if_neg hc, List.find?_append]
    have hsingle : ([((k, v) : String × List Int)].find? (fun p => p.1 == k')) = none := by
      rw [List.find?_eq_none]
      intro x hx
      rw [List.mem_singleton] at hx
      subst hx
      simp only [beq_iff_eq]
      exact fun hkk => h (hkk.symm)
    rw [hsingle]
    cases m.find? (fun p => p.1 == k') <;> rfl

theorem mapGet_foldl_mapSet (env : Env) (facts : List String)
    (m0 : List (String × List Int)) (t : String) :
    mapGet (facts.foldl (fun m fact => mapSet m fact (env.embed fact)) m0) t =
      if t ∈ facts then some (env.embed t) else mapGet m0 t := by
  induction facts generalizing m0 with
  | nil => simp
  | cons f rest ih =>
    simp only [List.foldl_cons, ih]
    by_cases hf : t ∈ rest
    · simp [hf]
    · by_cases ht : t = f
      · subst ht
        simp [hf, mapGet_mapSet_self]
      · simp [hf, ht, mapGet_mapSet_ne _ _ ht]

theorem mapGet_buildFactEmbeddings (env : Env) (facts : List String) (t : String) :
    mapGet (buildFactEmbeddings env facts) t =
      if t ∈ facts then some (env.embed t) else none := by
  unfold buildFactEmbeddings
  rw [mapGet_foldl_mapSet]
  rfl

/-! Helper lemmas about the action applier. -/

theorem applyF_cons (env : Env) (failAt : Nat → Bool)
    (fe : List (String × List Int)) (ctx : MemoryMetadata) (act : MemoryAction)
    (rest : List MemoryAction) (store : Store) (counter i : Nat) :
    AgenticMemory.applyMemoryActionsF env failAt fe ctx (act :: rest) store counter i =
      if (AgenticMemory.issuesCall act && failAt i) = true then
        ⟨store, counter, some (i, act)⟩
      else
        AgenticMemory.applyMemoryActionsF env failAt fe ctx rest
          (AgenticMemory.stepStore env fe ctx act store counter).1
          (AgenticMemory.stepStore env fe ctx act store counter).2 (i + 1) := by
  obtain ⟨ty, oid, tx, ofc⟩ := act
  cases ty <;> cases oid <;> by_cases hf : failAt i = true <;>
    simp [AgenticMemory.applyMemoryActionsF, AgenticMemory.issuesCall,
      AgenticMemory.stepStore, hf]

theorem applyF_false_failure (env : Env) (fe : List (String × List Int))
    (ctx : MemoryMetadata) :
    ∀ (actions : List MemoryAction) (store : Store) (counter i : Nat),
      (AgenticMemory.applyMemoryActionsF env (fun _ => false) fe ctx actions store
        counter i).failure = none := by
  intro actions
  induction actions with
  | nil => intro store counter i; rfl
  | cons act rest ih =>
    intro store counter i
    rw [applyF_cons]
    simp only [Bool.and_false]
    simp only [if_neg (by simp : ¬(false = true))]
    exact ih _ _ _

theorem applyF_false_shift (env : Env) (fe : List (String × List Int))
    (ctx : MemoryMetadata) :
    ∀ (actions : List MemoryAction) (store : Store) (counter i j : Nat),
      AgenticMemory.applyMemoryActionsF env (fun _ => false) fe ctx actions store counter i =
        AgenticMemory.applyMemoryActionsF env (fun _ => false) fe ctx actions store counter j := by
  intro actions
  induction actions with
  | nil => intro store counter i j; rfl
  | cons act rest ih =>
    intro store counter i j
    rw [applyF_cons, applyF_cons]
    simp only [Bool.and_false]
    simp only [if_neg (by simp : ¬(false = true))]
    exact ih _ _ _ _

theorem applyF_fail_prefix (env : Env) (failAt : Nat → Bool)
    (fe : List (String × List Int)) (ctx : MemoryMetadata) :
    ∀ (actions : List MemoryAction) (store : Store) (counter i j : Nat)
      (a : MemoryAction) (st : Store) (c : Nat),
      AgenticMemory.applyMemoryActionsF env failAt fe ctx actions store counter i =
        ⟨st, c, some (j, a)⟩ →
      i ≤ j ∧ actions[j - i]? = some a ∧ failAt j = true ∧
        AgenticMemory.applyMemoryActionsF env (fun _ => false) fe ctx
          (actions.take (j - i)) store counter 0 = ⟨st, c, none⟩ := by
  intro actions
  induction actions with
  | nil =>
    intro store counter i j a st c h
    exact absurd h (by simp [AgenticMemory.applyMemoryActionsF])
  | cons act rest ih =>
    intro store counter i j a st c h
    rw [applyF_cons] at h
    by_cases hc : (AgenticMemory.issuesCall act && failAt i) = true
    · rw [if_pos hc] at h
      injection h with hst hcc hfail
      injection hfail with hpair
      injection hpair with hj ha
      subst hst; subst hcc; subst hj; subst ha
      refine ⟨Nat.le_refl i, ?_, ?_, ?_⟩
      · simp [Nat.sub_self]
      · exact ((Bool.and_eq_true _ _).mp hc).2
      · simp [Nat.sub_self, AgenticMemory.applyMemoryActionsF]
    · rw [if_neg hc] at h
      obtain ⟨hij, hget, hfa, happ⟩ := ih _ _ _ _ _ _ _ h
      have hji : j - i = (j - (i + 1)) + 1 := by omega
      refine ⟨by omega, ?_, hfa, ?_⟩
      · rw [hji, List.getElem?_cons_succ]
        exact hget
      · rw [hji, List.take_succ_cons, applyF_cons]
        simp only [Bool.and_false]
        simp only [if_neg (by simp : ¬(false = true))]
        exact (applyF_false_shift env fe ctx _ _ _ _ 0).trans happ

theorem stepStore_metadata {env : Env} {fe : List (String × List Int)}
    {ctx : MemoryMetadata} {act : MemoryAction} {store : Store} {counter : Nat}
    {q : QPoint} (h : q ∈ (AgenticMemory.stepStore env fe ctx act store counter).1) :
    (∃ r ∈ store, r.metadata = q.metadata) ∨ q.metadata = ⟨ctx.userId, env.now⟩ := by
  obtain ⟨ty, oid, tx, ofc⟩ := act
  cases ty with
  | ADD =>
    simp only [AgenticMemory.stepStore] at h
    rcases mem_addMemory h with h1 | h1
    · exact .inl ⟨q, h1, rfl⟩
    · right; rw [h1]
  | UPDATE =>
    cases oid with
    | none => exact .inl ⟨q, by simpa [AgenticMemory.stepStore] using h, rfl⟩
    | some id =>
      simp only [AgenticMemory.stepStore] at h
      obtain ⟨r, hr, hq⟩ := mem_updateMemory h
      rcases hq with rfl | rfl
      · exact .inl ⟨q, hr, rfl⟩
      · exact .inl ⟨r, hr, (setPayloadPoint_metadata_none env r _).symm⟩
  | DELETE =>
    cases oid with
    | none => exact .inl ⟨q, by simpa [AgenticMemory.stepStore] using h, rfl⟩
    | some id =>
      simp only [AgenticMemory.stepStore] at h
      exact .inl ⟨q, mem_deleteMemory h, rfl⟩
  | UNCHANGED => exact .inl ⟨q, by simpa [AgenticMemory.stepStore] using h, rfl⟩

theorem applyF_metadata (env : Env) (failAt : Nat → Bool)
    (fe : List (String × List Int)) (ctx : MemoryMetadata) :
    ∀ (actions : List MemoryAction) (store : Store) (counter i : Nat) (p : QPoint),
      p ∈ (AgenticMemory.applyMemoryActionsF env failAt fe ctx actions store
        counter i).store →
      (∃ q ∈ store, q.metadata = p.metadata) ∨ p.metadata = ⟨ctx.userId, env.now⟩ := by
  intro actions
  induction actions with
  | nil => intro store counter i p h; exact .inl ⟨p, h, rfl⟩
  | cons act rest ih =>
    intro store counter i p h
    rw [applyF_cons] at h
    by_cases hc : (AgenticMemory.issuesCall act && failAt i) = true
    · rw [if_pos hc] at h
      exact .inl ⟨p, h, rfl⟩
    · rw [if_neg hc] at h
      rcases ih _ _ _ _ h with ⟨q, hq, hmeta⟩ | hnew
      · rcases stepStore_metadata hq with ⟨r, hr, hrm⟩ | hqnew
        · exact .inl ⟨r, hr, hrm.trans hmeta⟩
        · right
          rw [← hmeta]
          exact hqnew
      · exact .inr hnew

theorem stepStore_timestamp_irrel (env : Env) (fe : List (String × List Int))
    (act : MemoryAction) (store : Store) (counter : Nat) (u : String) (t t' : Nat) :
    AgenticMemory.stepStore env fe ⟨u, t⟩ act store counter =
      AgenticMemory.stepStore env fe ⟨u, t'⟩ act store counter := by
  obtain ⟨ty, oid, tx, ofc⟩ := act
  cases ty <;> cases oid <;> simp [AgenticMemory.stepStore]

theorem applyF_timestamp_irrel (env : Env) (failAt : Nat → Bool)
    (fe : List (String × List Int)) (u : String) (t t' : Nat) :
    ∀ (actions : List MemoryAction) (store : Store) (counter i : Nat),
      AgenticMemory.applyMemoryActionsF env failAt fe ⟨u, t⟩ actions store counter i =
        AgenticMemory.applyMemoryActionsF env failAt fe ⟨u, t'⟩ actions store counter i := by
  intro actions
  induction actions with
  | nil => intro store counter i; rfl
  | cons act rest ih =>
    intro store counter i
    rw [applyF_cons, applyF_cons]
    by_cases hc : (AgenticMemory.issuesCall act && failAt i) = true
    · rw [if_pos hc, if_pos hc]
    · rw [if_neg hc, if_neg hc, stepStore_timestamp_irrel env fe act store counter u t t']
      exact ih _ _ _

theorem applyF_all_skipped (env : Env) (failAt : Nat → Bool)
    (fe : List (String × List Int)) (ctx : MemoryMetadata) :
    ∀ (actions : List MemoryAction) (store : Store) (counter i : Nat),
      (∀ a ∈ actions, (a.type = .UPDATE ∨ a.type = .DELETE) ∧ a.id = none) →
      AgenticMemory.applyMemoryActionsF env failAt fe ctx actions store counter i =
        ⟨store, counter, none⟩ := by
  intro actions
  induction actions with
  | nil => intro store counter i _; rfl
  | cons act rest ih =>
    intro store counter i hall
    obtain ⟨hhead, hid⟩ := hall act (List.mem_cons_self _ _)
    rw [applyF_cons]
    have hcall : AgenticMemory.issuesCall act = false := by
      obtain ⟨ty, oid, tx, ofc⟩ := act
      simp only at hid
      subst hid
      rcases hhead with h | h <;> (simp only at h; subst h; rfl)
    rw [hcall]
    simp only [Bool.false_and]
    simp only [if_neg (by simp : ¬(false = true))]
    have hstep : AgenticMemory.stepStore env fe ctx act store counter = (store, counter) := by
      obtain ⟨ty, oid, tx, ofc⟩ := act
      simp only at hid
      subst hid
      rcases hhead with h | h <;> (simp only at h; subst h; rfl)
    rw [hstep]
    exact ih _ _ _ (fun a ha => hall a (List.mem_cons_of_mem _ ha))

/-! Claim theorems. -/

/-- C6: the Applier processes the action sequence strictly in order and is
fail-fast: when the storage call for the action at index `i` fails, the
reported failure names that action and its index, the resulting store and
counter are exactly those of applying the prefix of the first `i` actions on
healthy storage (actions before `i` remain applied), and no action at an
index greater than `i` contributes anything. -/
theorem c6_applier_fail_fast (env : Env) (failAt : Nat → Bool)
    (fe : List (String × List Int)) (ctx : MemoryMetadata)
    (actions : List MemoryAction) (store st : Store) (counter c i : Nat)
    (a : MemoryAction)
    (h : AgenticMemory.applyMemoryActionsF env failAt fe ctx actions store counter 0 =
      ⟨st, c, some (i, a)⟩) :
    actions[i]? = some a ∧ failAt i = true ∧
      AgenticMemory.applyMemoryActions env fe ctx (actions.take i) store counter =
        ⟨st, c, none⟩ := by
  obtain ⟨_, hget, hfa, happ⟩ :=
    applyF_fail_prefix env failAt fe ctx actions store counter 0 i a st c h
  rw [Nat.sub_zero] at hget happ
  exact ⟨hget, hfa, happ⟩

/-- Witness for C6: two ADD actions with the storage call of the second one
failing; the failure reports index 1, and the store holds exactly the memory
added by the first action. -/
theorem c6_applier_fail_fast_witness :
    (([⟨.ADD, none, "x", none⟩, ⟨.ADD, none, "y", none⟩] :
        List MemoryAction))[1]? = some ⟨.ADD, none, "y", none⟩ ∧
      (fun i => decide (i = 1)) 1 = true ∧
      AgenticMemory.applyMemoryActions envMiss [] ⟨"A", 0⟩
          (([⟨.ADD, none, "x", none⟩, ⟨.ADD, none, "y", none⟩] :
            List MemoryAction).take 1) [] 0 =
        ⟨[⟨"id0", [0], "x", ⟨"A", 7⟩, none, 7, 7⟩], 1, none⟩ :=
  c6_applier_fail_fast envMiss (fun i => decide (i = 1)) [] ⟨"A", 0⟩
    [⟨.ADD, none, "x", none⟩, ⟨.ADD, none, "y", none⟩]
    [] [⟨"id0", [0], "x", ⟨"A", 7⟩, none, 7, 7⟩] 0 1 1 ⟨.ADD, none, "y", none⟩
    (by decide)

/-- C1 counterexample: with an empty candidate set (similarity score 0 keeps
every stored memory below the 0.5 threshold), a resolver reply holding a
DELETE that names identifier "m1" — absent from the candidate set — is
executed against storage anyway: the call finishes without any failure and
the store loses the row, so the claimed `ConsolidationValidationFailure` with
zero mutations does not happen.  A DELETE carrying no identifier at all is
silently skipped: the call also finishes without any failure, contradicting
the claim that it must fail. -/
theorem c1_counterexample :
    (AgenticMemory.add envMiss (fun _ => ["f"])
        (fun _ _ => [⟨.DELETE, some "m1", "f", none⟩])
        (fun _ => false) [pointB] 0 "input" ⟨"B", 9⟩ =
      ⟨[], 0, none⟩) ∧
    (AgenticMemory.add envMiss (fun _ => ["f"])
        (fun _ _ => [⟨.DELETE, none, "f", none⟩])
        (fun _ => false) [pointB] 0 "input" ⟨"B", 9⟩ =
      ⟨[pointB], 0, none⟩) := by
  constructor <;> rfl

/-- C1 amended: the code performs no candidate-set validation and no
`ConsolidationValidationFailure` exists: on healthy storage `add` never
reports a failure whatever identifiers the resolver's actions carry, and when
every action is an UPDATE or DELETE carrying no identifier the actions are
all silently skipped, leaving the store unchanged. -/
theorem c1_amended (env : Env) (llmF : FactsOracle) (llmC : ConsolidationOracle)
    (store : Store) (counter : Nat) (input : String) (context : MemoryMetadata)
    (hskip : ∀ a ∈ AgenticMemory.generateConsolidationActions llmC
        (AgenticMemory.findSimilarMemories env store
          (AgenticMemory.extractFacts llmF input) context.userId)
        (AgenticMemory.extractFacts llmF input),
      (a.type = .UPDATE ∨ a.type = .DELETE) ∧ a.id = none) :
    (AgenticMemory.add env llmF llmC (fun _ => false) store counter input
        context).failure = none ∧
      (AgenticMemory.add env llmF llmC (fun _ => false) store counter input
        context).store = store := by
  constructor
  · simp only [AgenticMemory.add]
    exact applyF_false_failure env _ context _ store counter 0
  · simp only [AgenticMemory.add]
    rw [applyF_all_skipped env _ _ context _ store counter 0 hskip]

/-- Witness for C1 amended: a resolver reply holding one UPDATE with no
identifier is skipped; the call returns without failure and the store is
unchanged. -/
theorem c1_amended_witness :
    (AgenticMemory.add envMiss (fun _ => ["f"])
        (fun _ _ => [⟨.UPDATE, none, "z", none⟩])
        (fun _ => false) [pointB] 0 "input" ⟨"B", 9⟩).failure = none ∧
      (AgenticMemory.add envMiss (fun _ => ["f"])
        (fun _ _ => [⟨.UPDATE, none, "z", none⟩])
        (fun _ => false) [pointB] 0 "input" ⟨"B", 9⟩).store = [pointB] :=
  c1_amended envMiss (fun _ => ["f"]) (fun _ _ => [⟨.UPDATE, none, "z", none⟩])
    [pointB] 0 "input" ⟨"B", 9⟩ (by decide)

/-- C4 counterexample: the Resolver forwards the reasoning collaborator's
reply without validating per-fact coverage: a schema-valid empty reply for
one input fact yields zero actions, not one action per fact. -/
theorem c4_counterexample :
    (AgenticMemory.generateConsolidationActions (fun _ _ => [])
        ([] : List Memory) ["a"]).length ≠ (["a"] : List String).length := by
  decide

/-- C4 amended: the Resolver returns the reasoning collaborator's action
list unmodified (no coverage or order enforcement), so the action sequence
has exactly one action per input fact, in input order, precisely when the
collaborator's reply already does; in particular a reply of matching length
yields a result of matching length. -/
theorem c4_amended (llmC : ConsolidationOracle) (oldMemories : List Memory)
    (newFacts : List String)
    (h : (llmC (oldMemories.map (fun m => (m.id, m.content))) newFacts).length =
      newFacts.length) :
    AgenticMemory.generateConsolidationActions llmC oldMemories newFacts =
        llmC (oldMemories.map (fun m => (m.id, m.content))) newFacts ∧
      (AgenticMemory.generateConsolidationActions llmC oldMemories newFacts).length =
        newFacts.length :=
  ⟨rfl, h⟩

/-- Witness for C4 amended: a collaborator reply with one action for the one
input fact passes through unchanged. -/
theorem c4_amended_witness :
    AgenticMemory.generateConsolidationActions
        (fun _ _ => [⟨.ADD, none, "a", none⟩]) ([] : List Memory) ["a"] =
      [⟨.ADD, none, "a", none⟩] ∧
    (AgenticMemory.generateConsolidationActions
        (fun _ _ => [⟨.ADD, none, "a", none⟩]) ([] : List Memory) ["a"]).length =
      (["a"] : List String).length :=
  c4_amended (fun _ _ => [⟨.ADD, none, "a", none⟩]) [] ["a"] (by decide)

/-- C5 counterexample: when extraction yields no facts, the code still asks
the consolidation oracle and applies its reply; a schema-valid reply holding
one ADD mutates storage even though the fact list was empty. -/
theorem c5_counterexample :
    AgenticMemory.extractFacts (fun _ => []) "input" = [] ∧
      (AgenticMemory.add envMiss (fun _ => [])
          (fun _ _ => [⟨.ADD, none, "x", none⟩])
          (fun _ => false) [] 0 "input" ⟨"A", 9⟩).store =
        [⟨"id0", [0], "x", ⟨"A", 7⟩, none, 7, 7⟩] ∧
      (AgenticMemory.add envMiss (fun _ => [])
          (fun _ _ => [⟨.ADD, none, "x", none⟩])
          (fun _ => false) [] 0 "input" ⟨"A", 9⟩).store ≠ ([] : Store) := by
  refine ⟨rfl, rfl, ?_⟩
  decide

/-- C5 amended: on an input whose extraction yields an empty fact list, the
call performs no storage mutation and returns without failure provided the
consolidation oracle's reply for the empty candidate set and empty fact list
is the empty action list (the code does not short-circuit before the
consolidation step, so this proviso is needed). -/
theorem c5_amended (env : Env) (llmF : FactsOracle) (llmC : ConsolidationOracle)
    (store : Store) (counter : Nat) (input : String) (context : MemoryMetadata)
    (hfacts : llmF input = []) (hresolve : llmC [] [] = []) :
    AgenticMemory.add env llmF llmC (fun _ => false) store counter input context =
      ⟨store, counter, none⟩ := by
  unfold AgenticMemory.add AgenticMemory.extractFacts
  rw [hfacts]
  simp only [AgenticMemory.findSimilarMemories, List.map_nil, List.flatten_nil,
    AgenticMemory.generateConsolidationActions, AgenticMemory.dedupById]
  simp only [List.enum_nil, List.filter_nil, List.map_nil]
  rw [hresolve]
  rfl

/-- Witness for C5 amended: constant oracles extracting nothing and
resolving nothing leave the store untouched. -/
theorem c5_amended_witness :
    AgenticMemory.add envMiss (fun _ => []) (fun _ _ => [])
        (fun _ => false) [pointB] 0 "input" ⟨"A", 9⟩ = ⟨[pointB], 0, none⟩ :=
  c5_amended envMiss (fun _ => []) (fun _ _ => []) [pointB] 0 "input" ⟨"A", 9⟩
    rfl rfl

/-- C9 counterexample: a failing retrieve call is caught and reported as an
absent result: `get` returns `none` for identifier "m1" even though a memory
with that identifier exists, so absence is not returned exactly when the
identifier does not exist, and collaborator failure is conflated with
absence. -/
theorem c9_counterexample :
    pointB ∈ ([pointB] : Store) ∧ pointB.id = "m1" ∧
      AgenticMemory.get true [pointB] "m1" = none := by
  decide

/-- C9 amended: when the retrieve call succeeds, `get` returns `none` exactly
when no stored point carries the identifier; but when the retrieve call
fails, the error is caught and `get` returns `none` as well, so a
storage-collaborator failure is reported as absence rather than as a
distinct error. -/
theorem c9_amended (store : Store) (id : String) :
    (AgenticMemory.get false store id = none ↔ ∀ p ∈ store, p.id ≠ id) ∧
      AgenticMemory.get true store id = none := by
  constructor
  · have hiff : MemoryStorage.getMemory false store id = none ↔
        store.find? (fun p => p.id == id) = none := by
      unfold MemoryStorage.getMemory
      cases store.find? (fun p => p.id == id) <;> simp
    rw [AgenticMemory.get, hiff, List.find?_eq_none]
    constructor
    · intro h p hp
      have := h p hp
      simpa using this
    · intro h p hp
      simpa using h p hp
  · rfl

/-- Witness for C9 amended: on the one-point store holding "m1", a
successful lookup of the absent identifier "zz" returns `none`, and the
equivalence turns that into the absence of "zz" among the stored
identifiers; a failing lookup of "zz" returns `none` too. -/
theorem c9_amended_witness :
    (∀ p ∈ ([pointB] : Store), p.id ≠ "zz") ∧
      AgenticMemory.get true [pointB] "zz" = none :=
  ⟨(c9_amended [pointB] "zz").1.mp (by decide), (c9_amended [pointB] "zz").2⟩

/-- C2 counterexample: the point-identifier operations carry no user
parameter at all, so a session acting for user "A" that calls `get` with
identifier "m1" receives user "B"'s memory, and calling `delete` with that
identifier removes "B"'s row; nothing scopes these operations to the calling
user. -/
theorem c2_counterexample :
    AgenticMemory.get false [pointB] "m1" = some (pointToMemory pointB) ∧
      (pointToMemory pointB).metadata.userId = "B" ∧
      AgenticMemory.delete [pointB] "m1" = ([] : Store) := by
  decide

/-- C2 amended: the query operations are user-scoped — a `search` (recall)
or date-range listing scoped to one user returns only memories whose owning
user matches — but the point-identifier `get`, `update` and `delete`
operations take no user parameter and operate on any user's row. -/
theorem c2_amended (env : Env) (store : Store) (query : String)
    (context : MemoryMetadata) (startDate endDate limit : Nat) :
    (∀ ms m, AgenticMemory.search env store query context = .ok ms → m ∈ ms →
      m.metadata.userId = context.userId) ∧
    (∀ m ∈ AgenticMemory.getMemoriesByDateRange store context.userId startDate
        endDate limit, m.metadata.userId = context.userId) := by
  constructor
  · intro ms m hok hm
    unfold AgenticMemory.search MemoryStorage.searchMemories at hok
    injection hok with hok
    subst hok
    obtain ⟨p, _, _, hu⟩ := mem_searchMemoriesVec hm
    exact hu
  · intro m hm
    unfold AgenticMemory.getMemoriesByDateRange MemoryStorage.getMemoriesByDateRange at hm
    rw [List.mem_map] at hm
    obtain ⟨p, hp, hmp⟩ := hm
    have hp2 := List.mem_of_mem_take hp
    rw [List.mem_filter] at hp2
    have hcond := hp2.2
    simp only [Bool.and_eq_true, beq_iff_eq, decide_eq_true_eq] at hcond
    rw [← hmp]
    exact hcond.1.1

/-- Witness for C2 amended: a search by user "B" over the two-user store
returns "B"'s memory, and the theorem certifies its owner is "B". -/
theorem c2_amended_witness :
    (pointToMemory pointB).metadata.userId = "B" :=
  (c2_amended envHit [pointB, pointA] "q" ⟨"B", 0⟩ 0 0 10).1
    [pointToMemory pointB] (pointToMemory pointB) rfl (by decide)

/-- C7: for every fact sequence and user, the Retriever's result is the
per-fact vector-query results (limit 5, score threshold 0.5, scoped to the
user) concatenated and deduplicated by memory identifier: no identifier
occurs twice in the result, every returned memory comes from some per-fact
query, and every queried memory's identifier is represented in the result. -/
theorem c7_retriever (env : Env) (store : Store) (facts : List String)
    (userId : String) :
    ((AgenticMemory.findSimilarMemories env store facts userId).map
        Memory.id).Nodup ∧
    (∀ m ∈ AgenticMemory.findSimilarMemories env store facts userId,
      m ∈ (facts.map (fun fact =>
        MemoryStorage.searchMemoriesVec env store userId (env.embed fact) 5
          (mkRat 1 2))).flatten) ∧
    (∀ m ∈ (facts.map (fun fact =>
        MemoryStorage.searchMemoriesVec env store userId (env.embed fact) 5
          (mkRat 1 2))).flatten,
      ∃ m' ∈ AgenticMemory.findSimilarMemories env store facts userId,
        m'.id = m.id) := by
  refine ⟨?_, ?_, ?_⟩
  · exact dedupById_nodup _
  · intro m hm
    exact dedupById_subset hm
  · intro m hm
    exact dedupById_covers hm

/-- Witness for C7: one fact, one stored point for the user; the queried
memory's identifier is represented in the Retriever's result. -/
theorem c7_retriever_witness :
    ∃ m' ∈ AgenticMemory.findSimilarMemories envHit [pointB] ["q"] "B",
      m'.id = (pointToMemory pointB).id :=
  (c7_retriever envHit [pointB] ["q"] "B").2.2 (pointToMemory pointB) (by decide)

/-- C3 (code behavior at the failing input): applying the UPDATE of memory
"m1" from content "old" to fact text "new" replaces the content, bumps
`updatedAt` to the current time and keeps the identifier, but the
re-generated embedding of "new" is only written into a payload attribute:
the point's search vector remains the embedding of "old" (Qdrant
`setPayload` never changes a point's vector).  Consequently a similarity
search for the embedding of "new" misses the updated memory while a search
for the stale embedding of "old" still finds it. -/
theorem c3_update_leaves_search_vector_stale :
    MemoryStorage.updateMemory envEq [pointB] "m1" (some "new") none =
      [⟨"m1", [0], "new", ⟨"B", 3⟩, some [1], 1, 7⟩] ∧
    envEq.embed "new" = [1] ∧ envEq.embed "old" = [0] ∧
    MemoryStorage.searchMemoriesVec envEq
        (MemoryStorage.updateMemory envEq [pointB] "m1" (some "new") none)
        "B" (envEq.embed "new") 5 (mkRat 1 2) = [] ∧
    MemoryStorage.searchMemoriesVec envEq
        (MemoryStorage.updateMemory envEq [pointB] "m1" (some "new") none)
        "B" (envEq.embed "old") 5 (mkRat 1 2) =
      [⟨"m1", "new", ⟨"B", 3⟩, some [0], 1, 7⟩] := by
  decide

theorem applyF_vector (env : Env) (failAt : Nat → Bool)
    (fe : List (String × List Int)) (ctx : MemoryMetadata)
    (hfe : ∀ t, mapGet fe t = none ∨ mapGet fe t = some (env.embed t)) :
    ∀ (actions : List MemoryAction),
      (∀ a ∈ actions, a.type ≠ .UPDATE) →
      ∀ (store : Store) (counter i : Nat) (p : QPoint),
        p ∈ (AgenticMemory.applyMemoryActionsF env failAt fe ctx actions store
          counter i).store →
        p ∈ store ∨ p.vector = env.embed p.content := by
  intro actions
  induction actions with
  | nil => intro _ store counter i p h; exact .inl h
  | cons act rest ih =>
    intro hnu store counter i p h
    rw [applyF_cons] at h
    by_cases hc : (AgenticMemory.issuesCall act && failAt i) = true
    · rw [if_pos hc] at h
      exact .inl h
    · rw [if_neg hc] at h
      have hstep : ∀ q : QPoint,
          q ∈ (AgenticMemory.stepStore env fe ctx act store counter).1 →
          q ∈ store ∨ q.vector = env.embed q.content := by
        intro q hq
        obtain ⟨ty, oid, tx, ofc⟩ := act
        cases ty with
        | ADD =>
          simp only [AgenticMemory.stepStore] at hq
          rcases mem_addMemory hq with h1 | h1
          · exact .inl h1
          · right
            rw [h1]
            rcases hfe tx with hm | hm <;> simp [hm]
        | UPDATE => exact absurd rfl (hnu _ (List.mem_cons_self _ _))
        | DELETE =>
          cases oid with
          | none => exact .inl (by simpa [AgenticMemory.stepStore] using hq)
          | some id =>
            simp only [AgenticMemory.stepStore] at hq
            exact .inl (mem_deleteMemory hq)
        | UNCHANGED => exact .inl (by simpa [AgenticMemory.stepStore] using hq)
      rcases ih (fun a ha => hnu a (List.mem_cons_of_mem _ ha)) _ _ _ _ h with
        hmem | hnew
      · exact hstep p hmem
      · exact .inr hnew

theorem embedCallsOfApply_nil {env : Env} {facts : List String} :
    ∀ {actions : List MemoryAction},
      (∀ a ∈ actions, (a.type = .ADD → a.text ∈ facts) ∧ a.type ≠ .UPDATE) →
      AgenticMemory.embedCallsOfApply (buildFactEmbeddings env facts) actions = [] := by
  intro actions
  induction actions with
  | nil => intro _; rfl
  | cons act rest ih =>
    intro h
    obtain ⟨hadd, hupd⟩ := h act (List.mem_cons_self _ _)
    have htail := ih (fun a ha => h a (List.mem_cons_of_mem _ ha))
    obtain ⟨ty, oid, tx, ofc⟩ := act
    cases ty with
    | ADD =>
      have htx : tx ∈ facts := hadd rfl
      simp only [AgenticMemory.embedCallsOfApply, mapGet_buildFactEmbeddings,
        if_pos htx]
      exact htail
    | UPDATE => exact absurd rfl hupd
    | DELETE =>
      cases oid <;> simpa [AgenticMemory.embedCallsOfApply] using htail
    | UNCHANGED =>
      cases oid <;> simpa [AgenticMemory.embedCallsOfApply] using htail

/-- C8 counterexample: for one extracted fact "a" the embedding of "a" is
computed twice before the apply phase — once while building the
fact-embedding map in `add` and once more inside `findSimilarMemories` — so
the embedding of a fact's text is not computed exactly once per call. -/
theorem c8_counterexample :
    AgenticMemory.embedCallsOfAdd envMiss (fun _ => ["a"]) (fun _ _ => [])
        [] "input" ⟨"A", 9⟩ = ["a", "a"] ∧
      (AgenticMemory.embedCallsOfAdd envMiss (fun _ => ["a"]) (fun _ _ => [])
        [] "input" ⟨"A", 9⟩).count "a" ≠ 1 := by
  decide

/-- C8 amended: during one `add` call the embedding of each extracted fact
text is computed exactly twice before the apply phase (once into the
fact-embedding map, once by the Retriever) — provided the resolver's actions
are ADDs of extracted facts and no UPDATEs, the apply phase adds no further
embedding call; and every memory present after the call either keeps the
vector of a previously stored point or carries exactly the embedding of its
own content — in particular every ADD-created memory stores the precomputed
vector for its fact text. -/
theorem c8_amended (env : Env) (llmF : FactsOracle) (llmC : ConsolidationOracle)
    (store : Store) (counter : Nat) (input : String) (context : MemoryMetadata)
    (hacts : ∀ a ∈ AgenticMemory.generateConsolidationActions llmC
        (AgenticMemory.findSimilarMemories env store
          (AgenticMemory.extractFacts llmF input) context.userId)
        (AgenticMemory.extractFacts llmF input),
      (a.type = .ADD → a.text ∈ AgenticMemory.extractFacts llmF input) ∧
        a.type ≠ .UPDATE) :
    (∀ t ∈ AgenticMemory.extractFacts llmF input,
      (AgenticMemory.embedCallsOfAdd env llmF llmC store input context).count t =
        2 * (AgenticMemory.extractFacts llmF input).count t) ∧
    (∀ p ∈ (AgenticMemory.add env llmF llmC (fun _ => false) store counter input
        context).store,
      p ∈ store ∨ p.vector = env.embed p.content) := by
  constructor
  · intro t ht
    simp only [AgenticMemory.embedCallsOfAdd]
    rw [embedCallsOfApply_nil hacts, List.append_nil, List.count_append]
    omega
  · intro p hp
    simp only [AgenticMemory.add] at hp
    refine applyF_vector env _ _ context ?_ _
      (fun a ha => (hacts a ha).2) store counter 0 p hp
    intro t
    rw [mapGet_buildFactEmbeddings]
    by_cases h : t ∈ AgenticMemory.extractFacts llmF input <;> simp [h]

/-- Witness for C8 amended: one fact "a" resolved to one ADD of "a": the
embedding of "a" is computed twice, and the created memory's stored vector is
the embedding of its content. -/
theorem c8_amended_witness :
    (AgenticMemory.embedCallsOfAdd envMiss (fun _ => ["a"])
        (fun _ _ => [⟨.ADD, none, "a", none⟩]) [] "input" ⟨"A", 9⟩).count "a" =
      2 * (AgenticMemory.extractFacts (fun _ => ["a"]) "input").count "a" ∧
    ((⟨"id0", [0], "a", ⟨"A", 7⟩, none, 7, 7⟩ : QPoint) ∈ ([] : Store) ∨
      (⟨"id0", [0], "a", ⟨"A", 7⟩, none, 7, 7⟩ : QPoint).vector =
        envMiss.embed (⟨"id0", [0], "a", ⟨"A", 7⟩, none, 7, 7⟩ : QPoint).content) :=
  ⟨(c8_amended envMiss (fun _ => ["a"]) (fun _ _ => [⟨.ADD, none, "a", none⟩])
      [] 0 "input" ⟨"A", 9⟩ (by decide)).1 "a" (by decide),
   (c8_amended envMiss (fun _ => ["a"]) (fun _ _ => [⟨.ADD, none, "a", none⟩])
      [] 0 "input" ⟨"A", 9⟩ (by decide)).2
     ⟨"id0", [0], "a", ⟨"A", 7⟩, none, 7, 7⟩ (by decide)⟩

/-- C10: every memory created by an `add` call carries
`metadata.timestamp = Date.now()` read at apply time: the result of `add`
does not depend on the caller-supplied `context.timestamp` at all, every
point of the resulting store either keeps the metadata of a previously
stored point or carries metadata built from the caller's user and the
apply-time clock, and the date-range listing filters on that stored
`metadata.timestamp`. -/
theorem c10_add_timestamps (env : Env) (llmF : FactsOracle)
    (llmC : ConsolidationOracle) (failAt : Nat → Bool) (store : Store)
    (counter : Nat) (input : String) (u : String)
    (t t' startDate endDate limit : Nat) :
    AgenticMemory.add env llmF llmC failAt store counter input ⟨u, t⟩ =
        AgenticMemory.add env llmF llmC failAt store counter input ⟨u, t'⟩ ∧
    (∀ p ∈ (AgenticMemory.add env llmF llmC failAt store counter input
        ⟨u, t⟩).store,
      (∃ q ∈ store, q.metadata = p.metadata) ∨ p.metadata = ⟨u, env.now⟩) ∧
    (∀ m ∈ AgenticMemory.getMemoriesByDateRange store u startDate endDate limit,
      startDate ≤ m.metadata.timestamp ∧ m.metadata.timestamp ≤ endDate) := by
  refine ⟨?_, ?_, ?_⟩
  · simp only [AgenticMemory.add]
    rw [applyF_timestamp_irrel env failAt _ u t t']
  · intro p hp
    simp only [AgenticMemory.add] at hp
    exact applyF_metadata env failAt _ ⟨u, t⟩ _ store counter 0 p hp
  · intro m hm
    unfold AgenticMemory.getMemoriesByDateRange MemoryStorage.getMemoriesByDateRange at hm
    rw [List.mem_map] at hm
    obtain ⟨p, hp, hmp⟩ := hm
    have hp2 := List.mem_of_mem_take hp
    rw [List.mem_filter] at hp2
    have hcond := hp2.2
    simp only [Bool.and_eq_true, beq_iff_eq, decide_eq_true_eq] at hcond
    rw [← hmp]
    exact ⟨hcond.1.2, hcond.2⟩

/-- Witness for C10: the same call with caller timestamps 5 and 6 produces
identical results; the memory created by the call carries the apply-time
clock (7) as its metadata timestamp; the one date-range query hit for user
"B" between 3 and 3 lies within those bounds. -/
theorem c10_add_timestamps_witness :
    AgenticMemory.add envMiss (fun _ => ["a"])
        (fun _ _ => [⟨.ADD, none, "a", none⟩]) (fun _ => false) [] 0 "input"
        ⟨"A", 5⟩ =
      AgenticMemory.add envMiss (fun _ => ["a"])
        (fun _ _ => [⟨.ADD, none, "a", none⟩]) (fun _ => false) [] 0 "input"
        ⟨"A", 6⟩ ∧
    ((∃ q ∈ ([] : Store),
        q.metadata = (⟨"id0", [0], "a", ⟨"A", 7⟩, none, 7, 7⟩ : QPoint).metadata) ∨
      (⟨"id0", [0], "a", ⟨"A", 7⟩, none, 7, 7⟩ : QPoint).metadata =
        ⟨"A", envMiss.now⟩) ∧
    (3 ≤ (pointToMemory pointB).metadata.timestamp ∧
      (pointToMemory pointB).metadata.timestamp ≤ 3) :=
  ⟨(c10_add_timestamps envMiss (fun _ => ["a"])
      (fun _ _ => [⟨.ADD, none, "a", none⟩]) (fun _ => false) [] 0 "input" "A"
      5 6 0 0 10).1,
   (c10_add_timestamps envMiss (fun _ => ["a"])
      (fun _ _ => [⟨.ADD, none, "a", none⟩]) (fun _ => false) [] 0 "input" "A"
      5 6 0 0 10).2.1 ⟨"id0", [0], "a", ⟨"A", 7⟩, none, 7, 7⟩ (by decide),
   (c10_add_timestamps envMiss (fun _ => ["a"])
      (fun _ _ => [⟨.ADD, none, "a", none⟩]) (fun _ => false) [pointB] 0 "input"
      "B" 5 6 3 3 5).2.2 (pointToMemory pointB) (by decide)⟩

end AgenticMem
